import Mathlib

/-!
Verification of the `uma-etl-iis-loader` ETL engine (`src/iis_etl`).

The Python source is shallowly embedded: every database table becomes a list
of row structures, every sync routine becomes a pure function from the old
table state (plus the decoded API feed) to the new table state, and Python
truthiness / dynamic typing is made explicit with `Option` and small variant
types.  SQLAlchemy object identity (rows mutated in place through references
held in a dict that is built once per run) is modelled by addressing rows
through their fixed position in the row list: updates are `List.set` at that
position, inserts are appends, so earlier-iteration mutations are visible to
later iterations exactly as in the source.  Wall-clock timestamps
(`datetime.now()`, `func.now()`) are modelled by a single `now : Nat`
parameter; only their presence (`valid_to` null or not) matters to the logic.
-/

/- ---------------------------------------------------------------- -/
/- Character/string helpers (kernel-computable stand-ins for the    -/
/- Python string primitives used by the source).                    -/
/- ---------------------------------------------------------------- -/

/-- Split a character list at every occurrence of `c`
(the behavior of Python `str.split(c)` / of splitting on a
single-character separator). -/
def splitCh (c : Char) : List Char → List (List Char)
  | [] => [[]]
  | x :: xs =>
    let r := splitCh c xs
    if x = c then [] :: r
    else
      match r with
      | [] => [[x]]
      | y :: ys => (x :: y) :: ys

/-- Decimal value of a digit string (callers check `isDigit` first). -/
def digitsToNat (l : List Char) : Nat :=
  l.foldl (fun acc c => acc * 10 + (c.toNat - 48)) 0

/-- Python `str.strip()`: drop leading and trailing whitespace. -/
def trimChars (l : List Char) : List Char :=
  ((l.dropWhile Char.isWhitespace).reverse.dropWhile Char.isWhitespace).reverse

/-- Python `str.lower()` restricted to the alphabets that occur in the
feed (ASCII and Cyrillic). -/
def lowerChar (c : Char) : Char :=
  if 'A' ≤ c ∧ c ≤ 'Z' then Char.ofNat (c.toNat + 32)
  else if 'А' ≤ c ∧ c ≤ 'Я' then Char.ofNat (c.toNat + 32)
  else if c = 'Ё' then 'ё'
  else c

/-- Normalized lookup key used by the department map in `sync_employees`:
`value.strip().lower()`. -/
def normKey (s : String) : List Char :=
  (trimChars s.data).map lowerChar

/-- Python substring test `sub in s` on character lists. -/
def containsSub (sub : List Char) : List Char → Bool
  | [] => sub.isEmpty
  | c :: rest => sub.isPrefixOf (c :: rest) || containsSub sub rest

/-- Python truthiness filter for an optional string: `None` and `""` are
falsy, everything else passes through. -/
def truthy (o : Option String) : Option String :=
  match o with
  | some s => if s = "" then none else some s
  | none => none

/-- `value or default` for an optional string under Python truthiness. -/
def truthyD (o : Option String) (d : String) : String :=
  (truthy o).getD d

/-- `datetime.strptime(s, "%H:%M").time()` (logic.py): one or two digit
hour `0..23`, a colon, one or two digit minute `0..59`; anything else
raises and is modelled as `none`.  A parsed time is a pair
`(hour, minute)`. -/
def parseTimeHM (s : String) : Option (Nat × Nat) :=
  match splitCh ':' s.data with
  | [h, m] =>
    if h ≠ [] ∧ h.length ≤ 2 ∧ h.all Char.isDigit ∧
       m ≠ [] ∧ m.length ≤ 2 ∧ m.all Char.isDigit then
      let hv := digitsToNat h
      let mv := digitsToNat m
      if hv ≤ 23 ∧ mv ≤ 59 then some (hv, mv) else none
    else none
  | _ => none

/-- A parsed calendar date. -/
structure PDate where
  year : Nat
  month : Nat
  day : Nat
deriving DecidableEq, Repr

def isLeapYear (y : Nat) : Bool :=
  (y % 4 == 0 && y % 100 != 0) || y % 400 == 0

def daysInMonth (y m : Nat) : Nat :=
  if m = 2 then (if isLeapYear y then 29 else 28)
  else if m = 4 ∨ m = 6 ∨ m = 9 ∨ m = 11 then 30
  else 31

/-- `datetime.strptime(s, "%d.%m.%Y").date()` as used by `_parse_date`
(logic.py lines 52-56): day and month are one or two digits, the year is
exactly four digits, the numbers must form a real calendar date
(`datetime` validates ranges, e.g. 31.02 is rejected and year 0000 is
below `MINYEAR`). -/
def parseDateStr (s : String) : Option PDate :=
  match splitCh '.' s.data with
  | [d, m, y] =>
    if d ≠ [] ∧ d.length ≤ 2 ∧ d.all Char.isDigit ∧
       m ≠ [] ∧ m.length ≤ 2 ∧ m.all Char.isDigit ∧
       y.length = 4 ∧ y.all Char.isDigit then
      let dv := digitsToNat d
      let mv := digitsToNat m
      let yv := digitsToNat y
      if 1 ≤ yv ∧ 1 ≤ mv ∧ mv ≤ 12 ∧ 1 ≤ dv ∧ dv ≤ daysInMonth yv mv then
        some ⟨yv, mv, dv⟩
      else none
    else none
  | _ => none

/-- `_parse_date` on an optional field: a missing value raises `TypeError`
inside `strptime`, which the function catches and turns into `None`. -/
def parseDateOpt (o : Option String) : Option PDate :=
  o.bind parseDateStr

/- ---------------------------------------------------------------- -/
/- Group History Tracker: `sync_groups` (logic.py lines 125-171).   -/
/- ---------------------------------------------------------------- -/

/-- One feed item from `/student-groups`.  Fields read with `.get` are
optional; `item['id']` and `item['name']` are required by the code. -/
structure GroupItem where
  id : Nat
  specialityDepartmentEducationFormId : Option Nat
  name : String
  course : Option Int
  calendarId : Option String
  educationDegree : Option Int
  numberOfStudents : Option Int
deriving DecidableEq, Repr

/-- One `student_groups` row.  `valid_to = none` means the version is
open ("current").  The DB-defaulted `valid_from` and the surrogate key are
not read by any of the logic and are left out; row identity is the
position in the table list. -/
structure GroupRow where
  id : Nat
  name : String
  course : Option Int
  calendar_id : Option String
  education_degree : Int
  number_of_students : Option Int
  specialty_id : Nat
  valid_to : Option Nat
deriving DecidableEq, Repr

/-- The row inserted for a feed item (`StudentGroup(id=api_id, **new_data)`,
logic.py lines 142-146): `educationDegree` defaults to 1. -/
def mkGroupRow (it : GroupItem) (spec : Nat) : GroupRow :=
  { id := it.id, name := it.name, course := it.course,
    calendar_id := it.calendarId, education_degree := it.educationDegree.getD 1,
    number_of_students := it.numberOfStudents, specialty_id := spec,
    valid_to := none }

/-- Predicate for an open row with natural id `gid`. -/
def openP (gid : Nat) (r : GroupRow) : Bool :=
  decide (r.id = gid ∧ r.valid_to = none)

/-- Number of open rows carrying natural id `gid`. -/
def openCount (rows : List GroupRow) (gid : Nat) : Nat :=
  rows.countP (openP gid)

/-- Index of the row a Python `db_map[gid]` reference points at:
`db_map = {g.id: g for g in <open rows>}` keeps, for each id, the last
open row in iteration order. -/
def lastOpenIdx : List GroupRow → Nat → Option Nat
  | [], _ => none
  | r :: rs, gid =>
    match lastOpenIdx rs gid with
    | some j => some (j + 1)
    | none => if openP gid r then some 0 else none

/-- The validity filter of lines 139-140 and 165: the item's
`specialityDepartmentEducationFormId` must be a known speciality id. -/
def isValidItem (specIds : List Nat) (it : GroupItem) : Bool :=
  match it.specialityDepartmentEducationFormId with
  | some s => specIds.contains s
  | none => false

/-- `is_changed` (logic.py lines 152-156): one of the tracked fields
(name, course, specialty assignment) differs. -/
def trackedDiff (cur : GroupRow) (it : GroupItem) (spec : Nat) : Bool :=
  decide (cur.name ≠ it.name ∨ cur.course ≠ it.course ∨ cur.specialty_id ≠ spec)

/-- The body of the `for item in api_groups` loop (logic.py lines 137-163)
for one item.  `db0` is the table state the `db_map` indices were computed
from; `rows` is the current table state. -/
def syncStep (specIds : List Nat) (db0 : List GroupRow) (now : Nat)
    (rows : List GroupRow) (it : GroupItem) : List GroupRow :=
  match it.specialityDepartmentEducationFormId with
  | none => rows
  | some spec =>
    if specIds.contains spec then
      match lastOpenIdx db0 it.id with
      | none => rows ++ [mkGroupRow it spec]
      | some j =>
        match rows[j]? with
        | none => rows
        | some cur =>
          if trackedDiff cur it spec then
            (rows.set j { cur with valid_to := some now }) ++ [mkGroupRow it spec]
          else if cur.number_of_students ≠ it.numberOfStudents then
            rows.set j { cur with number_of_students := it.numberOfStudents }
          else rows
    else rows

/-- `api_ids` (logic.py line 165): ids of the feed items whose speciality
id is known. -/
def apiIds (specIds : List Nat) (feed : List GroupItem) : List Nat :=
  (feed.filter (isValidItem specIds)).map GroupItem.id

/-- The distinct ids of the open rows, i.e. the keys of `db_map` in
insertion order. -/
def openIds (db0 : List GroupRow) : List Nat :=
  ((db0.filter (fun r => decide (r.valid_to = none))).map GroupRow.id).dedup

/-- The body of the closing loop (logic.py lines 166-169) for one
`db_map` key. -/
def closeStep (specIds : List Nat) (feed : List GroupItem) (db0 : List GroupRow)
    (now : Nat) (rows : List GroupRow) (gid : Nat) : List GroupRow :=
  if (apiIds specIds feed).contains gid then rows
  else
    match lastOpenIdx db0 gid with
    | none => rows
    | some j =>
      match rows[j]? with
      | none => rows
      | some cur => rows.set j { cur with valid_to := some now }

/-- `sync_groups` (logic.py lines 125-171): an empty (or falsy) feed
returns immediately; otherwise every feed item is processed against the
`db_map` built from the open rows of `db`, and afterwards every `db_map`
entry whose id is absent from the valid feed ids is closed. -/
def sync_groups (specIds : List Nat) (db : List GroupRow) (feed : List GroupItem)
    (now : Nat) : List GroupRow :=
  if feed = [] then db
  else (openIds db).foldl (closeStep specIds feed db now)
    (feed.foldl (syncStep specIds db now) db)

/-- Empty-ish feed item used in concrete checks. -/
def itemA : GroupItem :=
  { id := 7, specialityDepartmentEducationFormId := some 1, name := "A",
    course := none, calendarId := none, educationDegree := none,
    numberOfStudents := none }

example : openCount (sync_groups [1] [] [itemA, itemA] 0) 7 = 2 := by decide
example : openCount (sync_groups [1] [] [itemA] 0) 7 = 1 := by decide

/- ---------------------------------------------------------------- -/
/- Lemmas about the group model.                                    -/
/- ---------------------------------------------------------------- -/

theorem openP_iff (gid : Nat) (r : GroupRow) :
    openP gid r = true ↔ r.id = gid ∧ r.valid_to = none := by
  simp [openP]

theorem getElem?_lt {α : Type} {l : List α} {j : Nat} {a : α}
    (h : l[j]? = some a) : j < l.length := by
  rcases List.getElem?_eq_some.mp h with ⟨hlt, _⟩
  exact hlt

theorem mem_of_getElem?' {α : Type} {l : List α} {j : Nat} {a : α}
    (h : l[j]? = some a) : a ∈ l := by
  rcases List.getElem?_eq_some.mp h with ⟨hlt, he⟩
  exact he ▸ List.getElem_mem hlt

theorem lastOpenIdx_some {db : List GroupRow} {gid j : Nat}
    (h : lastOpenIdx db gid = some j) :
    ∃ r, db[j]? = some r ∧ r.id = gid ∧ r.valid_to = none := by
  induction db generalizing j with
  | nil => simp [lastOpenIdx] at h
  | cons r rs ih =>
    unfold lastOpenIdx at h
    cases hrec : lastOpenIdx rs gid with
    | some j' =>
      rw [hrec] at h
      injection h with hj
      subst hj
      simpa using ih hrec
    | none =>
      rw [hrec] at h
      by_cases hp : openP gid r = true
      · rw [if_pos hp] at h
        injection h with hj
        subst hj
        exact ⟨r, by simp, (openP_iff gid r).mp hp⟩
      · rw [if_neg hp] at h
        cases h

theorem lastOpenIdx_none {db : List GroupRow} {gid : Nat}
    (h : lastOpenIdx db gid = none) : openCount db gid = 0 := by
  induction db with
  | nil => rfl
  | cons r rs ih =>
    unfold lastOpenIdx at h
    cases hrec : lastOpenIdx rs gid with
    | some j' => rw [hrec] at h; cases h
    | none =>
      rw [hrec] at h
      by_cases hp : openP gid r = true
      · rw [if_pos hp] at h; cases h
      · simp only [openCount, List.countP_cons, hp, if_false]
        simpa [openCount] using ih hrec

theorem countP_set_balance {α : Type} (p : α → Bool) (rows : List α) (j : Nat)
    (cur r' : α) (h : rows[j]? = some cur) :
    (rows.set j r').countP p + (if p cur then 1 else 0) =
      rows.countP p + (if p r' then 1 else 0) := by
  induction rows generalizing j with
  | nil => simp at h
  | cons x xs ih =>
    cases j with
    | zero =>
      have hx : x = cur := by simpa using h
      rw [hx]
      simp only [List.set, List.countP_cons]
      by_cases hp : p cur = true <;> by_cases hq : p r' = true <;>
        simp [hp, hq] <;> omega
    | succ j' =>
      simp only [List.getElem?_cons_succ] at h
      simp only [List.set, List.countP_cons]
      have := ih j' h
      omega

/-- No row is ever removed and ids at existing positions never change:
`rows` extends `db` when every position of `db` is still occupied by a row
with the same natural id. -/
def extendsIds (db rows : List GroupRow) : Prop :=
  ∀ i, i < db.length →
    ∃ r r₀, rows[i]? = some r ∧ db[i]? = some r₀ ∧ r.id = r₀.id

theorem extendsIds_refl (db : List GroupRow) : extendsIds db db := by
  intro i hi
  exact ⟨db[i], db[i], List.getElem?_eq_getElem hi, List.getElem?_eq_getElem hi, rfl⟩

theorem extendsIds_length {db rows : List GroupRow} (h : extendsIds db rows) :
    db.length ≤ rows.length := by
  by_contra hlt
  push_neg at hlt
  rcases h rows.length hlt with ⟨r, _, hr, _, _⟩
  have : rows[rows.length]? = none := by simp
  rw [this] at hr
  cases hr

theorem extendsIds_set {db rows : List GroupRow} {j : Nat} {cur r' : GroupRow}
    (h : extendsIds db rows) (hj : rows[j]? = some cur) (hid : r'.id = cur.id) :
    extendsIds db (rows.set j r') := by
  intro i hi
  rcases h i hi with ⟨r, r₀, hr, h₀, hidr⟩
  by_cases hij : j = i
  · subst hij
    rw [hj] at hr
    injection hr with hr
    subst hr
    refine ⟨r', r₀, ?_, h₀, by rw [hid, hidr]⟩
    rw [List.getElem?_set]
    simp [getElem?_lt hj]
  · refine ⟨r, r₀, ?_, h₀, hidr⟩
    rw [List.getElem?_set, if_neg hij]
    exact hr

theorem extendsIds_append {db rows : List GroupRow} (l : List GroupRow)
    (h : extendsIds db rows) : extendsIds db (rows ++ l) := by
  intro i hi
  rcases h i hi with ⟨r, r₀, hr, h₀, hidr⟩
  refine ⟨r, r₀, ?_, h₀, hidr⟩
  rw [List.getElem?_append, if_pos (getElem?_lt hr)]
  exact hr

theorem extendsIds_syncStep {specIds : List Nat} {db : List GroupRow} {now : Nat}
    {rows : List GroupRow} (it : GroupItem) (h : extendsIds db rows) :
    extendsIds db (syncStep specIds db now rows it) := by
  unfold syncStep
  split
  · exact h
  · split
    · split
      · exact extendsIds_append _ h
      · split
        · exact h
        · rename_i cur hrj
          split
          · exact extendsIds_append _ (extendsIds_set h hrj rfl)
          · split
            · exact extendsIds_set h hrj rfl
            · exact h
    · exact h

theorem extendsIds_closeStep {specIds : List Nat} {feed : List GroupItem}
    {db : List GroupRow} {now : Nat} {rows : List GroupRow} (gid : Nat)
    (h : extendsIds db rows) :
    extendsIds db (closeStep specIds feed db now rows gid) := by
  unfold closeStep
  split
  · exact h
  · split
    · exact h
    · split
      · exact h
      · rename_i cur hrj
        exact extendsIds_set h hrj rfl

theorem extendsIds_syncFold {specIds : List Nat} {db : List GroupRow} {now : Nat} :
    ∀ (feed : List GroupItem) (rows : List GroupRow), extendsIds db rows →
      extendsIds db (feed.foldl (syncStep specIds db now) rows)
  | [], _, h => h
  | it :: rest, rows, h =>
    extendsIds_syncFold rest _ (extendsIds_syncStep it h)

theorem extendsIds_closeFold {specIds : List Nat} {feed : List GroupItem}
    {db : List GroupRow} {now : Nat} :
    ∀ (ids : List Nat) (rows : List GroupRow), extendsIds db rows →
      extendsIds db (ids.foldl (closeStep specIds feed db now) rows)
  | [], _, h => h
  | gid :: rest, rows, h =>
    extendsIds_closeFold rest _ (extendsIds_closeStep gid h)

/-- Processing a feed item that is not a valid item for natural id `gid`
leaves the number of open `gid` rows unchanged. -/
theorem syncStep_count_ne {specIds : List Nat} {db : List GroupRow} {now gid : Nat}
    {rows : List GroupRow} {it : GroupItem} (hext : extendsIds db rows)
    (hit : isValidItem specIds it = false ∨ it.id ≠ gid) :
    openCount (syncStep specIds db now rows it) gid = openCount rows gid := by
  unfold syncStep
  split
  · rfl
  · rename_i spec hspec
    split
    · rename_i hc
      have hid : it.id ≠ gid := by
        rcases hit with hv | hv
        · exfalso
          have hvt : isValidItem specIds it = true := by
            simp only [isValidItem, hspec]
            exact hc
          rw [hvt] at hv
          exact Bool.noConfusion hv
        · exact hv
      split
      · simp only [openCount, List.countP_append]
        have : openP gid (mkGroupRow it spec) = false := by
          simp [openP, mkGroupRow, hid]
        simp [this]
      · rename_i j hidx
        split
        · rfl
        · rename_i cur hrj
          rcases lastOpenIdx_some hidx with ⟨r₀, hdb, hr₀, _⟩
          rcases hext j (getElem?_lt hdb) with ⟨r, r₀', hr, h₀', hidr⟩
          rw [hrj] at hr
          injection hr with hr
          rw [hdb] at h₀'
          injection h₀' with h₀'
          have hcurid : cur.id = it.id := by
            rw [hr, hidr, ← h₀']
            exact hr₀
          have hcfalse : openP gid cur = false := by
            simp [openP, hcurid, hid]
          split
          · simp only [openCount, List.countP_append]
            have h1 := countP_set_balance (openP gid) rows j cur
              { cur with valid_to := some now } hrj
            have h2 : openP gid { cur with valid_to := some now } = false := by
              simp [openP, hcurid, hid]
            have h3 : openP gid (mkGroupRow it spec) = false := by
              simp [openP, mkGroupRow, hid]
            rw [hcfalse, h2] at h1
            simp only [Bool.false_eq_true, if_false] at h1
            simp [h3]
            omega
          · split
            · rename_i hn
              have h1 := countP_set_balance (openP gid) rows j cur
                { cur with number_of_students := it.numberOfStudents } hrj
              have h2 : openP gid { cur with number_of_students := it.numberOfStudents } = false := by
                simp [openP, hcurid, hid]
              rw [hcfalse, h2] at h1
              simpa [openCount] using h1
            · rfl
    · rfl

theorem apiIds_cons (specIds : List Nat) (it : GroupItem) (rest : List GroupItem) :
    apiIds specIds (it :: rest) =
      if isValidItem specIds it = true then it.id :: apiIds specIds rest
      else apiIds specIds rest := by
  simp only [apiIds, List.filter_cons]
  split <;> simp

/-- Processing a feed item that is not a valid item for natural id `gid`
leaves the row referenced by `db_map[gid]` untouched. -/
theorem syncStep_get_ne {specIds : List Nat} {db : List GroupRow} {now gid jg : Nat}
    {rows : List GroupRow} {it : GroupItem} {rg : GroupRow}
    (hext : extendsIds db rows)
    (hdb : db[jg]? = some rg) (hrg : rg.id = gid)
    (hit : isValidItem specIds it = false ∨ it.id ≠ gid) :
    (syncStep specIds db now rows it)[jg]? = rows[jg]? := by
  have hltr : jg < rows.length :=
    lt_of_lt_of_le (getElem?_lt hdb) (extendsIds_length hext)
  unfold syncStep
  split
  · rfl
  · rename_i spec hspec
    split
    · rename_i hc
      have hid : it.id ≠ gid := by
        rcases hit with hv | hv
        · exfalso
          have hvt : isValidItem specIds it = true := by
            simp only [isValidItem, hspec]
            exact hc
          rw [hvt] at hv
          exact Bool.noConfusion hv
        · exact hv
      split
      · rw [List.getElem?_append, if_pos hltr]
      · rename_i j hidx
        have hne : j ≠ jg := by
          intro hje
          subst hje
          rcases lastOpenIdx_some hidx with ⟨r₀, hdb', hr₀, _⟩
          rw [hdb] at hdb'
          injection hdb' with hre
          exact hid (by rw [← hr₀, ← hre]; exact hrg)
        split
        · rfl
        · rename_i cur hrj
          split
          · rw [List.getElem?_append]
            have hlt2 : jg < (rows.set j { cur with valid_to := some now }).length := by
              rw [List.length_set]
              exact hltr
            rw [if_pos hlt2, List.getElem?_set, if_neg hne]
          · split
            · rw [List.getElem?_set, if_neg hne]
            · rfl
    · rfl

/-- Processing the (unique) valid feed item for natural id `gid` keeps the
number of open `gid` rows at most one, provided the `gid` rows are still in
their loaded state. -/
theorem syncStep_count_gid {specIds : List Nat} {db : List GroupRow} {now gid : Nat}
    {rows : List GroupRow} {it : GroupItem}
    (hvalid : isValidItem specIds it = true) (hid : it.id = gid)
    (hcnt : openCount rows gid = openCount db gid)
    (hunt : ∀ j, lastOpenIdx db gid = some j → rows[j]? = db[j]?)
    (hbefore : openCount db gid ≤ 1) :
    openCount (syncStep specIds db now rows it) gid ≤ 1 := by
  unfold syncStep
  split
  · rw [hcnt]; exact hbefore
  · rename_i spec hspec
    split
    · split
      · rename_i hidx
        rw [hid] at hidx
        have h0 : openCount db gid = 0 := lastOpenIdx_none hidx
        have hr0 : openCount rows gid = 0 := by rw [hcnt, h0]
        have hmk1 : List.countP (openP gid) [mkGroupRow it spec] = 1 := by
          simp [List.countP_cons, openP, mkGroupRow, hid]
        simp only [openCount] at hr0 ⊢
        rw [List.countP_append, hmk1, hr0]
      · rename_i j hidx
        rw [hid] at hidx
        have hrow := hunt j hidx
        rcases lastOpenIdx_some hidx with ⟨r₀, hdb, hr₀, hop⟩
        have hrj' : rows[j]? = some r₀ := by rw [hrow, hdb]
        split
        · rename_i hnone
          rw [hrj'] at hnone
          exact Option.noConfusion hnone
        · rename_i cur hrj
          have hcur : cur = r₀ := by
            rw [hrj] at hrj'
            injection hrj'
          have hcid : cur.id = gid := by rw [hcur]; exact hr₀
          have hcop : cur.valid_to = none := by rw [hcur]; exact hop
          have hcopenT : openP gid cur = true := by simp [openP, hcid, hcop]
          have hpos : 1 ≤ openCount db gid := by
            have hmem : r₀ ∈ db := mem_of_getElem?' hdb
            have : 0 < db.countP (openP gid) :=
              List.countP_pos.mpr ⟨r₀, hmem, by simp [openP, hr₀, hop]⟩
            simpa [openCount] using this
          have hone : openCount rows gid = 1 := by
            rw [hcnt]
            omega
          split
          · have h1 := countP_set_balance (openP gid) rows j cur
              { cur with valid_to := some now } hrj
            have h2 : openP gid { cur with valid_to := some now } = false := by
              simp [openP]
            rw [hcopenT, h2] at h1
            simp only [if_true, Bool.false_eq_true, if_false] at h1
            have hmk1 : List.countP (openP gid) [mkGroupRow it spec] = 1 := by
              simp [List.countP_cons, openP, mkGroupRow, hid]
            have hone' : rows.countP (openP gid) = 1 := hone
            simp only [openCount] at hone' ⊢
            rw [List.countP_append, hmk1]
            omega
          · split
            · have h1 := countP_set_balance (openP gid) rows j cur
                { cur with number_of_students := it.numberOfStudents } hrj
              have h2 : openP gid { cur with number_of_students := it.numberOfStudents } = true := by
                simp [openP, hcid, hcop]
              rw [hcopenT, h2] at h1
              simp only [if_true] at h1
              have hone' : rows.countP (openP gid) = 1 := hone
              simp only [openCount] at hone' ⊢
              omega
            · rw [hone]
    · rw [hcnt]; exact hbefore

/-- The item loop of `sync_groups` keeps at most one open row per natural
id, provided the valid feed items carry pairwise distinct ids. -/
theorem syncFold_count {specIds : List Nat} {db : List GroupRow} {now gid : Nat} :
    ∀ (feed : List GroupItem) (rows : List GroupRow), extendsIds db rows →
      (apiIds specIds feed).count gid ≤ 1 →
      ((openCount rows gid = openCount db gid ∧
        ∀ j, lastOpenIdx db gid = some j → rows[j]? = db[j]?) ∨
       (openCount rows gid ≤ 1 ∧ gid ∉ apiIds specIds feed)) →
      openCount db gid ≤ 1 →
      openCount (feed.foldl (syncStep specIds db now) rows) gid ≤ 1 := by
  intro feed
  induction feed with
  | nil =>
    intro rows _ _ hst hb
    simp only [List.foldl_nil]
    rcases hst with ⟨hc, _⟩ | ⟨hc, _⟩
    · rw [hc]; exact hb
    · exact hc
  | cons it rest ih =>
    intro rows hext hcnt hst hb
    simp only [List.foldl_cons]
    by_cases hv : isValidItem specIds it = true
    · by_cases hidg : it.id = gid
      · have hmem : gid ∈ apiIds specIds (it :: rest) := by
          rw [apiIds_cons, if_pos hv, hidg]
          exact List.mem_cons_self _ _
        rcases hst with ⟨hc, hu⟩ | ⟨_, hnm⟩
        · have hstep := @syncStep_count_gid specIds db now gid rows it hv hidg hc hu hb
          have hrest0 : (apiIds specIds rest).count gid = 0 := by
            rw [apiIds_cons, if_pos hv, hidg] at hcnt
            simp only [List.count_cons_self] at hcnt
            omega
          have hnot : gid ∉ apiIds specIds rest := List.count_eq_zero.mp hrest0
          exact ih _ (extendsIds_syncStep it hext) (by omega)
            (Or.inr ⟨hstep, hnot⟩) hb
        · exact absurd hmem hnm
      · have hpres := @syncStep_count_ne specIds db now gid rows it hext (Or.inr hidg)
        have hcnt' : (apiIds specIds rest).count gid ≤ 1 := by
          rw [apiIds_cons, if_pos hv] at hcnt
          have hne : (it.id == gid) = false := by
            simp [hidg]
          simp only [List.count_cons, hne, if_false] at hcnt
          omega
        rcases hst with ⟨hc, hu⟩ | ⟨hle, hnm⟩
        · refine ih _ (extendsIds_syncStep it hext) hcnt' (Or.inl ⟨?_, ?_⟩) hb
          · rw [hpres, hc]
          · intro j hj
            rcases lastOpenIdx_some hj with ⟨r₀, hdb, hr₀, _⟩
            rw [syncStep_get_ne hext hdb hr₀ (Or.inr hidg)]
            exact hu j hj
        · refine ih _ (extendsIds_syncStep it hext) hcnt' (Or.inr ⟨?_, ?_⟩) hb
          · rw [hpres]; exact hle
          · intro hmem'
            exact hnm (by rw [apiIds_cons, if_pos hv]; exact List.mem_cons_of_mem _ hmem')
    · have hvf : isValidItem specIds it = false := by
        cases hb2 : isValidItem specIds it
        · rfl
        · exact absurd hb2 hv
      have hpres := @syncStep_count_ne specIds db now gid rows it hext (Or.inl hvf)
      have hcnt' : (apiIds specIds rest).count gid ≤ 1 := by
        rw [apiIds_cons, if_neg (by simp [hvf])] at hcnt
        exact hcnt
      rcases hst with ⟨hc, hu⟩ | ⟨hle, hnm⟩
      · refine ih _ (extendsIds_syncStep it hext) hcnt' (Or.inl ⟨?_, ?_⟩) hb
        · rw [hpres, hc]
        · intro j hj
          rcases lastOpenIdx_some hj with ⟨r₀, hdb, hr₀, _⟩
          rw [syncStep_get_ne hext hdb hr₀ (Or.inl hvf)]
          exact hu j hj
      · refine ih _ (extendsIds_syncStep it hext) hcnt' (Or.inr ⟨?_, ?_⟩) hb
        · rw [hpres]; exact hle
        · intro hmem'
          exact hnm (by rw [apiIds_cons, if_neg (by simp [hvf])]; exact hmem')

/-- Closing a row can only decrease the number of open rows. -/
theorem closeStep_count_le {specIds : List Nat} {feed : List GroupItem}
    {db : List GroupRow} {now gid : Nat} (rows : List GroupRow) (gid' : Nat) :
    openCount (closeStep specIds feed db now rows gid') gid ≤ openCount rows gid := by
  unfold closeStep
  split
  · exact le_refl _
  · split
    · exact le_refl _
    · rename_i j hidx
      split
      · exact le_refl _
      · rename_i cur hrj
        have h1 := countP_set_balance (openP gid) rows j cur
          { cur with valid_to := some now } hrj
        have h2 : openP gid { cur with valid_to := some now } = false := by
          simp [openP]
        rw [h2] at h1
        by_cases hpc : openP gid cur = true <;>
          simp only [hpc, if_true, if_false, Bool.false_eq_true] at h1 <;>
          simp only [openCount] <;> omega

theorem closeFold_count_le {specIds : List Nat} {feed : List GroupItem}
    {db : List GroupRow} {now gid : Nat} :
    ∀ (ids : List Nat) (rows : List GroupRow),
      openCount (ids.foldl (closeStep specIds feed db now) rows) gid ≤
        openCount rows gid
  | [], _ => le_refl _
  | gid' :: rest, rows =>
    le_trans (closeFold_count_le rest _) (closeStep_count_le rows gid')

/- ---------------------------------------------------------------- -/
/- Claim C1.                                                        -/
/- ---------------------------------------------------------------- -/

/-- C1 counterexample: the claim "if before a run of sync_groups at most
one StudentGroup row with that id has valid_to = null, then after the run
at most one such row exists" is false as stated.  Starting from an empty
table (zero open rows with id 7) and a feed that lists the same group item
twice, `sync_groups` inserts two open rows with id 7: `db_map` is built
once before the loop, so the second occurrence again finds no current row
and inserts a second open version. -/
theorem sync_groups_single_open_cex :
    openCount ([] : List GroupRow) 7 ≤ 1 ∧
      openCount (sync_groups [1] [] [itemA, itemA] 0) 7 = 2 := by
  constructor
  · decide
  · decide

/-- C1 (amended): for every natural id, if at most one open row with that
id exists before the run and the valid feed items (those whose speciality
id is known) carry pairwise distinct natural ids, then at most one open
row with that id exists after `sync_groups` completes. -/
theorem sync_groups_single_open (specIds : List Nat) (db : List GroupRow)
    (feed : List GroupItem) (now gid : Nat)
    (hnodup : (apiIds specIds feed).Nodup)
    (hbefore : openCount db gid ≤ 1) :
    openCount (sync_groups specIds db feed now) gid ≤ 1 := by
  unfold sync_groups
  split
  · exact hbefore
  · refine le_trans (closeFold_count_le _ _) ?_
    exact syncFold_count feed db (extendsIds_refl db)
      (List.nodup_iff_count_le_one.mp hnodup gid)
      (Or.inl ⟨rfl, fun _ _ => rfl⟩) hbefore

/-- C1 witness: the amended theorem applied at a concrete input. -/
theorem sync_groups_single_open_witness :
    openCount (sync_groups [1] [mkGroupRow itemA 1] [itemA] 3) 7 ≤ 1 :=
  sync_groups_single_open [1] [mkGroupRow itemA 1] [itemA] 3 7
    (by decide) (by decide)

/- ---------------------------------------------------------------- -/
/- Claim C2.                                                        -/
/- ---------------------------------------------------------------- -/

/-- C2: for a feed item whose speciality id is known and whose natural id
resolves to a current open row (the `db_map` entry at index `j`), the loop
body of `sync_groups` behaves as follows: if a tracked field (name,
course, specialty assignment) differs, it closes exactly that one row
(sets its `valid_to`) and appends exactly one new open row with the same
natural id; if the tracked fields agree and only the enrollment count
differs, it appends nothing and mutates only the enrollment count of the
existing row in place. -/
theorem syncStep_change_semantics (specIds : List Nat) (db : List GroupRow)
    (now : Nat) (rows : List GroupRow) (it : GroupItem) (spec j : Nat)
    (cur : GroupRow)
    (hspec : it.specialityDepartmentEducationFormId = some spec)
    (hin : specIds.contains spec = true)
    (hidx : lastOpenIdx db it.id = some j)
    (hcur : rows[j]? = some cur) :
    (trackedDiff cur it spec = true →
       syncStep specIds db now rows it =
         (rows.set j { cur with valid_to := some now }) ++ [mkGroupRow it spec]) ∧
    (trackedDiff cur it spec = false →
     cur.number_of_students ≠ it.numberOfStudents →
       syncStep specIds db now rows it =
         rows.set j { cur with number_of_students := it.numberOfStudents }) ∧
    (mkGroupRow it spec).id = it.id ∧ (mkGroupRow it spec).valid_to = none := by
  refine ⟨?_, ?_, rfl, rfl⟩
  · intro ht
    simp only [syncStep, hspec, hin, if_true, hidx, hcur, ht]
  · intro ht hn
    simp only [syncStep, hspec, hin, if_true, hidx, hcur, ht,
      Bool.false_eq_true, if_false, hn, ne_eq, not_false_iff]

/-- A feed item identical to `itemA` except for the tracked display name. -/
def itemB : GroupItem :=
  { id := 7, specialityDepartmentEducationFormId := some 1, name := "B",
    course := none, calendarId := none, educationDegree := none,
    numberOfStudents := none }

/-- C2 witness: a tracked-field change on a concrete open row. -/
theorem syncStep_change_semantics_witness :
    syncStep [1] [mkGroupRow itemA 1] 5 [mkGroupRow itemA 1] itemB =
      ([mkGroupRow itemA 1].set 0 { mkGroupRow itemA 1 with valid_to := some 5 }) ++
        [mkGroupRow itemB 1] :=
  (syncStep_change_semantics [1] [mkGroupRow itemA 1] 5 [mkGroupRow itemA 1]
    itemB 1 0 (mkGroupRow itemA 1) rfl (by decide) (by decide) (by decide)).1
    (by decide)

/- ---------------------------------------------------------------- -/
/- Claim C4.                                                        -/
/- ---------------------------------------------------------------- -/

/-- C4 counterexample: the claim quantifies over every feed snapshot, but
`sync_groups` returns immediately on an empty feed (`if not api_groups:
return`), so an id with a current open row that is absent from the (empty)
set of valid feed items is NOT closed. -/
theorem sync_groups_closes_absent_cex :
    lastOpenIdx [mkGroupRow itemA 1] 7 = some 0 ∧
    7 ∉ apiIds [1] ([] : List GroupItem) ∧
    sync_groups [1] [mkGroupRow itemA 1] [] 9 = [mkGroupRow itemA 1] ∧
    (mkGroupRow itemA 1).valid_to = none := by
  refine ⟨by decide, by decide, by decide, rfl⟩

/-- Closing a key other than `gid` never touches the `db_map[gid]` row. -/
theorem closeStep_get_ne {specIds : List Nat} {feed : List GroupItem}
    {db : List GroupRow} {now gid jg : Nat} {rows : List GroupRow}
    {rg : GroupRow} (gid' : Nat) (hext : extendsIds db rows)
    (hdb : db[jg]? = some rg) (hrg : rg.id = gid) (hgne : gid' ≠ gid) :
    (closeStep specIds feed db now rows gid')[jg]? = rows[jg]? := by
  unfold closeStep
  split
  · rfl
  · split
    · rfl
    · rename_i j hidx
      split
      · rfl
      · rename_i cur hrj
        have hjne : j ≠ jg := by
          intro hje
          subst hje
          rcases lastOpenIdx_some hidx with ⟨r₀, hdb', hr₀, _⟩
          rw [hdb] at hdb'
          injection hdb' with hre
          exact hgne (by rw [← hr₀, ← hre]; exact hrg)
        rw [List.getElem?_set, if_neg hjne]

/-- The closing step for an id that is absent from the valid feed ids
rewrites the `db_map` row in place with `valid_to = now`. -/
theorem closeStep_closes {specIds : List Nat} {feed : List GroupItem}
    {db : List GroupRow} {now gid jg : Nat} {rows : List GroupRow}
    {cur : GroupRow}
    (habs : gid ∉ apiIds specIds feed)
    (hidx : lastOpenIdx db gid = some jg)
    (hcur : rows[jg]? = some cur) :
    closeStep specIds feed db now rows gid =
      rows.set jg { cur with valid_to := some now } := by
  have hcf : (apiIds specIds feed).contains gid = false := by
    simp [habs]
  simp only [closeStep, hcf, Bool.false_eq_true, if_false, hidx, hcur]

/-- Folding the closing loop over a key list that mentions `gid` exactly
once (or a state where `gid` is already closed) leaves the `db_map[gid]`
row closed. -/
theorem closeFold_closes {specIds : List Nat} {feed : List GroupItem}
    {db : List GroupRow} {now gid jg : Nat}
    (hidx : lastOpenIdx db gid = some jg)
    (habs : gid ∉ apiIds specIds feed) :
    ∀ (ids : List Nat) (rows : List GroupRow), extendsIds db rows →
      ((gid ∈ ids ∧ ids.count gid ≤ 1) ∨
       (gid ∉ ids ∧ ∃ r, rows[jg]? = some r ∧ r.id = gid ∧
          r.valid_to = some now)) →
      ∃ r, (ids.foldl (closeStep specIds feed db now) rows)[jg]? = some r ∧
        r.id = gid ∧ r.valid_to = some now := by
  intro ids
  induction ids with
  | nil =>
    intro rows _ hst
    rcases hst with ⟨h, _⟩ | ⟨_, h⟩
    · cases h
    · simpa using h
  | cons g rest ih =>
    intro rows hext hst
    simp only [List.foldl_cons]
    rcases lastOpenIdx_some hidx with ⟨r₀, hdb, hr₀, hop⟩
    by_cases hg : g = gid
    · subst hg
      rcases hst with ⟨_, hcnt1⟩ | ⟨hnm, _⟩
      · rcases hext jg (getElem?_lt hdb) with ⟨cur, r₀', hcurr, hdb', hcid⟩
        rw [hdb] at hdb'
        injection hdb' with hdb'
        have hstep := @closeStep_closes specIds feed db now g jg rows cur
          habs hidx hcurr
        rw [hstep]
        have hnot : g ∉ rest := by
          simp only [List.count_cons_self] at hcnt1
          have h0 : rest.count g = 0 := by omega
          exact List.count_eq_zero.mp h0
        refine ih _ (extendsIds_set hext hcurr rfl) (Or.inr ⟨hnot, ?_⟩)
        refine ⟨{ cur with valid_to := some now }, ?_, ?_, rfl⟩
        · rw [List.getElem?_set, if_pos rfl,
            if_pos (lt_of_lt_of_le (getElem?_lt hdb) (extendsIds_length hext))]
        · show cur.id = g
          rw [hcid, ← hdb']
          exact hr₀
      · exact absurd (List.mem_cons_self _ _) hnm
    · rcases hst with ⟨hmem, hcnt1⟩ | ⟨hnm, hr⟩
      · have hmem' : gid ∈ rest := by
          rcases List.mem_cons.mp hmem with he | hm
          · exact absurd he.symm hg
          · exact hm
        have hcnt' : rest.count gid ≤ 1 := by
          have hne : (g == gid) = false := by simp [hg]
          simp only [List.count_cons, hne, if_false] at hcnt1
          omega
        exact ih _ (extendsIds_closeStep g hext) (Or.inl ⟨hmem', hcnt'⟩)
      · have hnm' : gid ∉ rest := fun hm => hnm (List.mem_cons_of_mem _ hm)
        refine ih _ (extendsIds_closeStep g hext) (Or.inr ⟨hnm', ?_⟩)
        rw [closeStep_get_ne g hext hdb hr₀ hg]
        exact hr

/-- C4 (amended): for every NON-EMPTY feed snapshot and every natural id
whose `db_map` entry (the current open row, at index `j`) is absent from
the set of valid feed ids, `sync_groups` sets that row's `valid_to` to the
current time; and no StudentGroup row is ever deleted (the table only
grows, and every pre-existing position still holds a row with its original
natural id). -/
theorem sync_groups_closes_absent (specIds : List Nat) (db : List GroupRow)
    (feed : List GroupItem) (now gid j : Nat)
    (hne : feed ≠ [])
    (hidx : lastOpenIdx db gid = some j)
    (habs : gid ∉ apiIds specIds feed) :
    (∃ r, (sync_groups specIds db feed now)[j]? = some r ∧
       r.id = gid ∧ r.valid_to = some now) ∧
    db.length ≤ (sync_groups specIds db feed now).length ∧
    (∀ i, i < db.length → ∃ r r₀,
       (sync_groups specIds db feed now)[i]? = some r ∧ db[i]? = some r₀ ∧
       r.id = r₀.id) := by
  have hextAll : extendsIds db (sync_groups specIds db feed now) := by
    unfold sync_groups
    split
    · exact extendsIds_refl db
    · exact extendsIds_closeFold _ _ (extendsIds_syncFold feed db (extendsIds_refl db))
  refine ⟨?_, extendsIds_length hextAll, hextAll⟩
  unfold sync_groups
  rw [if_neg hne]
  rcases lastOpenIdx_some hidx with ⟨r₀, hdb, hr₀, hop⟩
  have hmemIds : gid ∈ openIds db := by
    apply List.mem_dedup.mpr
    apply List.mem_map.mpr
    refine ⟨r₀, ?_, hr₀⟩
    exact List.mem_filter.mpr ⟨mem_of_getElem?' hdb, by simp [hop]⟩
  exact closeFold_closes hidx habs (openIds db) _
    (extendsIds_syncFold feed db (extendsIds_refl db))
    (Or.inl ⟨hmemIds,
      List.nodup_iff_count_le_one.mp (List.nodup_dedup _) gid⟩)

/-- A feed item with a fresh natural id, used to keep the witness feed
non-empty while leaving id 7 absent. -/
def itemC : GroupItem :=
  { id := 8, specialityDepartmentEducationFormId := some 1, name := "C",
    course := none, calendarId := none, educationDegree := none,
    numberOfStudents := none }

/-- C4 witness: the amended theorem applied at a concrete input. -/
theorem sync_groups_closes_absent_witness :
    (∃ r, (sync_groups [1] [mkGroupRow itemA 1] [itemC] 9)[0]? = some r ∧
       r.id = 7 ∧ r.valid_to = some 9) ∧
    ([mkGroupRow itemA 1] : List GroupRow).length ≤
      (sync_groups [1] [mkGroupRow itemA 1] [itemC] 9).length ∧
    (∀ i, i < ([mkGroupRow itemA 1] : List GroupRow).length → ∃ r r₀,
       (sync_groups [1] [mkGroupRow itemA 1] [itemC] 9)[i]? = some r ∧
       ([mkGroupRow itemA 1] : List GroupRow)[i]? = some r₀ ∧
       r.id = r₀.id) :=
  sync_groups_closes_absent [1] [mkGroupRow itemA 1] [itemC] 9 7 0
    (by decide) (by decide) (by decide)

/- ---------------------------------------------------------------- -/
/- Reference Data Syncer: `sync_employees` (logic.py lines 173-216).-/
/- ---------------------------------------------------------------- -/

/-- One `employees` row. -/
structure EmployeeRow where
  id : Nat
  first_name : String
  last_name : String
  middle_name : Option String
  degree : Option String
  rank : Option String
  photo_link : Option String
  calendar_id : Option String
  url_id : String
deriving DecidableEq, Repr

/-- An `academicDepartment` entry: a string, a dict (with optional `name`
and `abbrev`), or anything else (skipped). -/
inductive DeptRef where
  | dstr (s : String)
  | dobj (dname dabbrev : Option String)
  | dother
deriving DecidableEq, Repr

/-- One feed item from `/employees/all`. -/
structure EmpItem where
  id : Nat
  firstName : String
  lastName : String
  middleName : Option String
  degree : Option String
  rank : Option String
  photoLink : Option String
  calendarId : Option String
  urlId : Option String
  academicDepartment : List DeptRef
deriving DecidableEq, Repr

/-- The tables written by `sync_employees`: the employee rows and the
`departments_employees` association pairs `(department_id, employee_id)`. -/
structure EmpState where
  employees : List EmployeeRow
  links : List (Nat × Nat)
deriving DecidableEq, Repr

/-- Lookup in the `dept_map` dict; a later insertion overwrites an
earlier one, so the last matching entry wins. -/
def deptMapFind (entries : List (List Char × Nat)) (key : List Char) : Option Nat :=
  (entries.reverse.find? (fun e => e.1 == key)).map (fun e => e.2)

/-- `dept_map` construction (logic.py lines 177-181): each department row
`(id, name, abbr)` contributes its trimmed lowercased name and
abbreviation; falsy (empty) strings are skipped. -/
def mkDeptMap (depts : List (Nat × String × String)) : List (List Char × Nat) :=
  depts.flatMap (fun d =>
    (if d.2.1 ≠ "" then [(normKey d.2.1, d.1)] else []) ++
    (if d.2.2 ≠ "" then [(normKey d.2.2, d.1)] else []))

/-- Resolving one `academicDepartment` entry (logic.py lines 201-210):
strings are used directly, dicts contribute `name or abbrev`; a falsy
value is skipped, and the result must be found in `dept_map`. -/
def resolveDept (dmap : List (List Char × Nat)) (e : DeptRef) : Option Nat :=
  match e with
  | .dstr s => (truthy (some s)).bind (fun v => deptMapFind dmap (normKey v))
  | .dobj dname dabbrev =>
    match truthy dname with
    | some v => deptMapFind dmap (normKey v)
    | none =>
      match truthy dabbrev with
      | some v => deptMapFind dmap (normKey v)
      | none => none
  | .dother => none

/-- The `links` set (logic.py lines 199-210): resolved department ids,
deduplicated. -/
def resolveLinks (dmap : List (List Char × Nat)) (entries : List DeptRef) : List Nat :=
  (entries.filterMap (resolveDept dmap)).dedup

/-- The full row inserted for a fresh employee id (logic.py lines 186-190). -/
def mkEmployeeRow (it : EmpItem) (u : String) : EmployeeRow :=
  { id := it.id, first_name := it.firstName, last_name := it.lastName,
    middle_name := it.middleName, degree := it.degree, rank := it.rank,
    photo_link := it.photoLink, calendar_id := it.calendarId, url_id := u }

/-- `pg_insert(Employee)...on_conflict_do_update` (logic.py lines
186-194): a conflicting id only updates `rank`, `degree` and `url_id`;
otherwise the full row is inserted. -/
def upsertEmployee (rows : List EmployeeRow) (it : EmpItem) (u : String) :
    List EmployeeRow :=
  if rows.any (fun r => r.id == it.id) then
    rows.map (fun r =>
      if r.id == it.id then
        { r with rank := it.rank, degree := it.degree, url_id := u }
      else r)
  else
    rows ++ [mkEmployeeRow it u]

/-- The body of the `for item in data` loop of `sync_employees` (logic.py
lines 183-214): an item without a truthy `urlId` is skipped entirely;
otherwise the employee row is upserted, all of this employee's department
links are deleted, and the freshly resolved links are inserted. -/
def syncEmployeesStep (dmap : List (List Char × Nat)) (st : EmpState)
    (it : EmpItem) : EmpState :=
  match truthy it.urlId with
  | none => st
  | some u =>
    { employees := upsertEmployee st.employees it u,
      links := st.links.filter (fun l => l.2 != it.id) ++
        (resolveLinks dmap it.academicDepartment).map (fun d => (d, it.id)) }

/-- `sync_employees` over a whole feed. -/
def sync_employees (depts : List (Nat × String × String)) (st : EmpState)
    (feed : List EmpItem) : EmpState :=
  feed.foldl (syncEmployeesStep (mkDeptMap depts)) st

/- ---------------------------------------------------------------- -/
/- Claim C10.                                                       -/
/- ---------------------------------------------------------------- -/

/-- C10: a feed item without a non-empty `urlId` causes no write at all:
the employee row is neither inserted nor updated and the existing
department links are neither deleted nor recreated. -/
theorem syncEmployeesStep_no_urlid (dmap : List (List Char × Nat))
    (st : EmpState) (it : EmpItem)
    (h : it.urlId = none ∨ it.urlId = some "") :
    syncEmployeesStep dmap st it = st := by
  rcases h with h | h <;> simp [syncEmployeesStep, truthy, h]

/-- An employee feed item with a missing `urlId`. -/
def empItemNoUrl : EmpItem :=
  { id := 2, firstName := "X", lastName := "Y", middleName := none,
    degree := none, rank := none, photoLink := none, calendarId := none,
    urlId := none, academicDepartment := [DeptRef.dstr "каф"] }

/-- A pre-existing employee row used in concrete checks. -/
def empRowOld : EmployeeRow :=
  { id := 1, first_name := "A", last_name := "L", middle_name := none,
    degree := none, rank := none, photo_link := none, calendar_id := none,
    url_id := "u0" }

/-- C10 witness: the theorem applied at a concrete input with a non-empty
state. -/
theorem syncEmployeesStep_no_urlid_witness :
    syncEmployeesStep [] ⟨[empRowOld], [(3, 2)]⟩ empItemNoUrl =
      ⟨[empRowOld], [(3, 2)]⟩ :=
  syncEmployeesStep_no_urlid [] ⟨[empRowOld], [(3, 2)]⟩ empItemNoUrl
    (Or.inl rfl)

/- ---------------------------------------------------------------- -/
/- Reference Data Syncer: `sync_auditories` (logic.py lines 218-269)-/
/- ---------------------------------------------------------------- -/

/-- One `departments` row (the fields touched by `sync_auditories`). -/
structure DeptRow where
  id : Nat
  name : String
  abbr : String
  url_id : String
deriving DecidableEq, Repr

/-- One `auditories` row. -/
structure AudRow where
  id : Nat
  name : String
  building_number : Option String
  note : Option String
  capacity : Option Int
  auditory_type : Option String
  department_id : Option Nat
deriving DecidableEq, Repr

/-- The embedded `department` object of an auditory feed item; `none`
models a falsy or non-dict value, which line 241 skips. -/
structure DeptInfo where
  idDepartment : Option Nat
  dname : Option String
  dabbrev : Option String
deriving DecidableEq, Repr

/-- One feed item from `/auditories`. -/
structure AudItem where
  id : Nat
  name : String
  buildingNumberName : Option String
  buildingNumberId : Option Nat
  note : Option String
  capacity : Option Int
  auditoryTypeName : Option String
  department : Option DeptInfo
  departmentId : Option Nat
deriving DecidableEq, Repr

/-- The tables touched by `sync_auditories`, plus the in-memory
`existing_dept_ids` set that the loop mutates. -/
structure AudState where
  deptIds : List Nat
  depts : List DeptRow
  auds : List AudRow
deriving DecidableEq, Repr

/-- `build_name` (logic.py lines 227-231): the building object's name if
truthy, else `"{buildingNumberId} к."` when that id is truthy. -/
def audBuildName (it : AudItem) : Option String :=
  match truthy it.buildingNumberName with
  | some s => some s
  | none =>
    match it.buildingNumberId with
    | some n => if n ≠ 0 then some (toString n ++ " к.") else none
    | none => none

/-- `final_name` (logic.py lines 233-236): append the building qualifier
unless it already occurs as a substring of the raw room name. -/
def audFinalName (it : AudItem) : String :=
  match audBuildName it with
  | some bn =>
    if containsSub bn.data it.name.data then it.name else it.name ++ "-" ++ bn
  | none => it.name

/-- First 10 characters, Python `str(x)[:10]`. -/
def take10 (s : String) : String :=
  ⟨s.data.take 10⟩

/-- The department-healing block (logic.py lines 238-251): a truthy
embedded department object with a truthy unknown `idDepartment` is
auto-created (placeholder name/abbr when missing) and becomes the link
target; otherwise the item's `departmentId` is kept. -/
def audDeptResolve (st : AudState) (it : AudItem) : AudState × Option Nat :=
  match it.department with
  | some info =>
    match info.idDepartment with
    | some d =>
      if d ≠ 0 ∧ d ∉ st.deptIds then
        ({ st with
            deptIds := st.deptIds ++ [d],
            depts := st.depts ++
              [{ id := d, name := truthyD info.dname ("Dept " ++ toString d),
                 abbr := truthyD info.dabbrev ("D-" ++ toString d),
                 url_id := toString d }] },
         some d)
      else (st, it.departmentId)
    | none => (st, it.departmentId)
  | none => (st, it.departmentId)

/-- The final foreign-key guard (logic.py lines 253-254): a truthy
unknown `dept_id` is dropped to `None`. -/
def audDeptFinal (deptIds : List Nat) (o : Option Nat) : Option Nat :=
  match o with
  | some d => if d ≠ 0 ∧ d ∉ deptIds then none else some d
  | none => none

/-- The full row inserted for a fresh auditory id (logic.py lines
256-263). -/
def mkAudRow (it : AudItem) (fname : String) (bname : Option String)
    (did : Option Nat) : AudRow :=
  { id := it.id, name := fname, building_number := bname.map take10,
    note := it.note, capacity := it.capacity,
    auditory_type := it.auditoryTypeName, department_id := did }

/-- `pg_insert(Auditory)...on_conflict_do_update` (logic.py lines
256-268): a conflicting id only updates `name` and `capacity`; otherwise
the full row is inserted. -/
def upsertAuditory (rows : List AudRow) (it : AudItem) (fname : String)
    (bname : Option String) (did : Option Nat) : List AudRow :=
  if rows.any (fun r => r.id == it.id) then
    rows.map (fun r =>
      if r.id == it.id then { r with name := fname, capacity := it.capacity }
      else r)
  else
    rows ++ [mkAudRow it fname bname did]

/-- The body of the `for item in data` loop of `sync_auditories`
(logic.py lines 225-268). -/
def syncAuditoriesStep (st : AudState) (it : AudItem) : AudState :=
  let bname := audBuildName it
  let fname := audFinalName it
  let out := audDeptResolve st it
  let did := audDeptFinal out.1.deptIds out.2
  { out.1 with auds := upsertAuditory out.1.auds it fname bname did }

/-- `sync_auditories` over a whole feed (`existing_dept_ids` is seeded
with the department table's ids, logic.py lines 222-223). -/
def sync_auditories (depts : List DeptRow) (auds : List AudRow)
    (feed : List AudItem) : AudState :=
  feed.foldl syncAuditoriesStep ⟨depts.map DeptRow.id, depts, auds⟩

/- ---------------------------------------------------------------- -/
/- Claim C8.                                                        -/
/- ---------------------------------------------------------------- -/

/-- An employee feed item whose descriptive fields all differ from
`empRowOld` (same natural id 1). -/
def empItemNew : EmpItem :=
  { id := 1, firstName := "B", lastName := "M", middleName := some "N",
    degree := some "Dr", rank := some "Prof", photoLink := some "p",
    calendarId := some "c", urlId := some "u1", academicDepartment := [] }

/-- C8 counterexample: the upsert does NOT overwrite all mutable
descriptive fields with the latest feed values.  Upserting `empItemNew`
over the existing row with the same id leaves `first_name` at its old
stored value "A" even though the feed item carries "B" (the employee
on-conflict clause only sets `rank`, `degree` and `url_id`). -/
theorem upsert_lastwrite_cex :
    (syncEmployeesStep [] ⟨[empRowOld], []⟩ empItemNew).employees.map
        EmployeeRow.first_name = ["A"] ∧
      empItemNew.firstName = "B" ∧ ("A" : String) ≠ "B" := by
  refine ⟨by decide, rfl, by decide⟩

/-- C8 (amended): for a reference feed item whose natural id already
exists in its table, the upsert overwrites in place (keeping no history)
exactly a fixed subset of the row's fields with the latest feed values —
`rank`, `degree` and `url_id` for employees; `name` and `capacity` for
auditories — and leaves every other stored field unchanged. -/
theorem upsert_partial_overwrite (dmap : List (List Char × Nat))
    (st : EmpState) (it : EmpItem) (u : String) (ast : AudState)
    (ait : AudItem)
    (hu : truthy it.urlId = some u)
    (hex : ∃ r ∈ st.employees, r.id = it.id)
    (haex : ∃ r ∈ ast.auds, r.id = ait.id) :
    (syncEmployeesStep dmap st it).employees =
      st.employees.map (fun r =>
        if r.id == it.id then
          { r with rank := it.rank, degree := it.degree, url_id := u }
        else r) ∧
    (syncAuditoriesStep ast ait).auds =
      ast.auds.map (fun r =>
        if r.id == ait.id then
          { r with name := audFinalName ait, capacity := ait.capacity }
        else r) := by
  constructor
  · rcases hex with ⟨r, hmem, hid⟩
    have hany : st.employees.any (fun r => r.id == it.id) = true :=
      List.any_eq_true.mpr ⟨r, hmem, by simp [hid]⟩
    simp [syncEmployeesStep, hu, upsertEmployee, hany]
  · have hpres : (audDeptResolve ast ait).1.auds = ast.auds := by
      unfold audDeptResolve
      split
      · split
        · split
          · rfl
          · rfl
        · rfl
      · rfl
    rcases haex with ⟨r, hmem, hid⟩
    have hany : (ast.auds.any fun r => r.id == ait.id) = true :=
      List.any_eq_true.mpr ⟨r, hmem, by simp [hid]⟩
    simp only [syncAuditoriesStep, upsertAuditory, hpres, hany, if_true]

/-- An auditory row and a feed item with the same id but a different
`note`, used in the C8 witness. -/
def audRowOld : AudRow :=
  { id := 4, name := "111", building_number := none, note := some "old",
    capacity := some 10, auditory_type := none, department_id := none }

def audItemNew : AudItem :=
  { id := 4, name := "111new", buildingNumberName := none,
    buildingNumberId := none, note := some "new", capacity := some 20,
    auditoryTypeName := some "t", department := none, departmentId := none }

/-- C8 witness: the amended theorem applied at concrete inputs. -/
theorem upsert_partial_overwrite_witness :
    (syncEmployeesStep [] ⟨[empRowOld], []⟩ empItemNew).employees =
      [empRowOld].map (fun r =>
        if r.id == empItemNew.id then
          { r with rank := empItemNew.rank, degree := empItemNew.degree, url_id := "u1" }
        else r) ∧
    (syncAuditoriesStep ⟨[], [], [audRowOld]⟩ audItemNew).auds =
      [audRowOld].map (fun r =>
        if r.id == audItemNew.id then
          { r with name := audFinalName audItemNew, capacity := audItemNew.capacity }
        else r) :=
  upsert_partial_overwrite [] ⟨[empRowOld], []⟩ empItemNew "u1"
    ⟨[], [], [audRowOld]⟩ audItemNew rfl
    ⟨empRowOld, by decide, rfl⟩ ⟨audRowOld, by decide, rfl⟩

/- ---------------------------------------------------------------- -/
/- Schedule Normalizer: `_process_schedule_json`                    -/
/- (logic.py lines 271-404).                                        -/
/- ---------------------------------------------------------------- -/

/-- One entry of a lesson's `auditories` list: a dict (optional `name`,
optional `id`), a string, a bare integer, or anything else. -/
inductive AudVal where
  | aobj (aname : Option String) (aid : Option Int)
  | astr (s : String)
  | aint (n : Int)
  | aother
deriving DecidableEq, Repr

/-- `_extract_aud_names` for one entry (logic.py lines 23-34): a dict
yields its truthy `name` or else its stringified `id` (dropped when both
are missing), strings pass through unchecked, integers are stringified,
anything else is dropped. -/
def extractAudName : AudVal → Option String
  | .aobj aname aid =>
    match truthy aname with
    | some s => some s
    | none =>
      match aid with
      | some n => some (toString n)
      | none => none
  | .astr s => some s
  | .aint n => some (toString n)
  | .aother => none

def extractAudNames (l : List AudVal) : List String :=
  l.filterMap extractAudName

/-- One entry of a participant list (`studentGroups` / `employees`).
These lists are stored verbatim in the event row (`related_groups`,
`related_employees`); the name extraction performed on them feeds only the
dead `search_parts` variable, so their inner shape is immaterial. -/
inductive PartVal where
  | pobj (pname : Option String) (numberOfStudents : Option Int)
  | pstr (s : String)
  | pother
deriving DecidableEq, Repr

/-- `_parse_weeks` (logic.py lines 18-21). -/
def parseWeeks (w : List Int) : List Int :=
  if w = [] ∨ w = [0] then [1, 2, 3, 4] else w

/-- `DAYS_MAP` (logic.py lines 13-16). -/
def daysMap (s : String) : Option Nat :=
  if s = "Понедельник" then some 1
  else if s = "Вторник" then some 2
  else if s = "Среда" then some 3
  else if s = "Четверг" then some 4
  else if s = "Пятница" then some 5
  else if s = "Суббота" then some 6
  else if s = "Воскресенье" then some 7
  else none

/-- One lesson object from a schedule document. -/
structure Lesson where
  startLessonTime : Option String
  endLessonTime : Option String
  auditories : List AudVal
  weekNumber : List Int
  subject : Option String
  subjectFullName : Option String
  employees : List PartVal
  studentGroups : List PartVal
  numSubgroup : Option Int
deriving DecidableEq, Repr

/-- One exam object from a schedule document. -/
structure Exam where
  dateLesson : Option String
  startLessonTime : Option String
  endLessonTime : Option String
  auditories : List AudVal
  subject : Option String
  subjectFullName : Option String
  employees : List PartVal
  studentGroups : List PartVal
  numSubgroup : Option Int
deriving DecidableEq, Repr

/-- A raw schedule document: `schedules` is a weekday-name keyed dict of
lesson lists (`none` models an absent, falsy or non-dict value, which the
`isinstance` check at line 324 skips), `exams` a list of exam objects. -/
structure ScheduleDoc where
  schedules : Option (List (String × List Lesson))
  exams : List Exam
deriving DecidableEq, Repr

/-- One `schedule_events` row (the columns filled by the normalizer; the
derived `search_vector` column is recomputed by SQL afterwards and is not
part of the row data here). -/
structure EventRow where
  entity_name : String
  entity_type : String
  subject : String
  subject_full : String
  auditories : List String
  day_of_week : Option Nat
  start_time : Nat × Nat
  end_time : Nat × Nat
  week_numbers : List Int
  exact_date : Option PDate
  related_groups : List PartVal
  related_employees : List PartVal
  subgroup : Int
deriving DecidableEq, Repr

/-- `subj` for a lesson (logic.py line 338). -/
def lessonSubject (l : Lesson) : String :=
  truthyD l.subject "Без названия"

/-- `subj_full` for a lesson (logic.py line 339). -/
def lessonSubjectFull (l : Lesson) : String :=
  truthyD l.subjectFullName (lessonSubject l)

/-- The event dict built for a lesson (logic.py lines 350-359). -/
def mkLessonEvent (ename etype : String) (dn : Nat) (l : Lesson)
    (st et : Nat × Nat) : EventRow :=
  { entity_name := ename, entity_type := etype,
    subject := lessonSubject l, subject_full := lessonSubjectFull l,
    auditories := extractAudNames l.auditories, day_of_week := some dn,
    start_time := st, end_time := et,
    week_numbers := parseWeeks l.weekNumber, exact_date := none,
    related_groups := l.studentGroups, related_employees := l.employees,
    subgroup := l.numSubgroup.getD 0 }

/-- Lesson normalization (logic.py lines 329-359): a lesson whose start
or end time is missing or unparseable is dropped (`except: continue`). -/
def lessonEvent? (ename etype : String) (dn : Nat) (l : Lesson) :
    Option EventRow :=
  match l.startLessonTime.bind parseTimeHM, l.endLessonTime.bind parseTimeHM with
  | some st, some et => some (mkLessonEvent ename etype dn l st et)
  | _, _ => none

/-- `subj` for an exam (logic.py line 373). -/
def examSubject (e : Exam) : String :=
  truthyD e.subject "Экзамен"

/-- `subj_full` for an exam (logic.py line 374). -/
def examSubjectFull (e : Exam) : String :=
  truthyD e.subjectFullName (examSubject e)

/-- The event dict built for an exam (logic.py lines 376-385). -/
def mkExamEvent (ename etype : String) (e : Exam) (d : PDate)
    (st et : Nat × Nat) : EventRow :=
  { entity_name := ename, entity_type := etype,
    subject := examSubject e, subject_full := examSubjectFull e,
    auditories := extractAudNames e.auditories, day_of_week := none,
    start_time := st, end_time := et, week_numbers := [],
    exact_date := some d,
    related_groups := e.studentGroups, related_employees := e.employees,
    subgroup := e.numSubgroup.getD 0 }

/-- Exam normalization (logic.py lines 362-385): an exam whose date fails
to parse is dropped; an exam whose times fail to parse is kept with a
midnight-midnight placeholder. -/
def examEvent? (ename etype : String) (e : Exam) : Option EventRow :=
  match parseDateOpt e.dateLesson with
  | none => none
  | some d =>
    match e.startLessonTime.bind parseTimeHM, e.endLessonTime.bind parseTimeHM with
    | some st, some et => some (mkExamEvent ename etype e d st et)
    | _, _ => some (mkExamEvent ename etype e d (0, 0) (0, 0))

/-- The flat event list derived from one document (logic.py lines
324-385): weekday buckets with an unknown day name or an empty lesson
list are skipped, then each exam contributes at most one event. -/
def deriveEvents (ename etype : String) (doc : ScheduleDoc) : List EventRow :=
  (match doc.schedules with
   | none => []
   | some buckets =>
     buckets.flatMap (fun b =>
       match daysMap b.1 with
       | some dn =>
         if b.2 = [] then [] else b.2.filterMap (lessonEvent? ename etype dn)
       | none => [])) ++
  doc.exams.filterMap (examEvent? ename etype)

/-- The delete filter of logic.py lines 387-389. -/
def pairP (ename etype : String) (e : EventRow) : Bool :=
  e.entity_name == ename && e.entity_type == etype

/-- The effect of `_process_schedule_json` on the `schedule_events`
table: for an employee-viewpoint call without a truthy `employee_id` the
function returns before touching anything (logic.py lines 277-279);
otherwise all events of the `(entity_name, entity_type)` pair are deleted
and the freshly derived set is inserted (lines 387-392).  The archive
insertion and the group-enrollment refresh write other tables and are not
part of this state. -/
def processScheduleJson (table : List EventRow) (ename etype : String)
    (employeeId : Option Nat) (doc : ScheduleDoc) : List EventRow :=
  if etype ≠ "group" ∧ (employeeId = none ∨ employeeId = some 0) then table
  else
    table.filter (fun e => !(pairP ename etype e)) ++ deriveEvents ename etype doc

theorem lessonEvent?_fields {ename etype : String} {dn : Nat} {l : Lesson}
    {e : EventRow} (h : lessonEvent? ename etype dn l = some e) :
    e.entity_name = ename ∧ e.entity_type = etype := by
  unfold lessonEvent? at h
  split at h
  · injection h with h
    subst h
    exact ⟨rfl, rfl⟩
  · cases h

theorem examEvent?_fields {ename etype : String} {e : Exam} {ev : EventRow}
    (h : examEvent? ename etype e = some ev) :
    ev.entity_name = ename ∧ ev.entity_type = etype := by
  unfold examEvent? at h
  split at h
  · cases h
  · split at h
    · injection h with h
      subst h
      exact ⟨rfl, rfl⟩
    · injection h with h
      subst h
      exact ⟨rfl, rfl⟩

/-- Every derived event carries the entity pair it was derived for. -/
theorem deriveEvents_pair (ename etype : String) (doc : ScheduleDoc) :
    ∀ e ∈ deriveEvents ename etype doc,
      e.entity_name = ename ∧ e.entity_type = etype := by
  intro e he
  simp only [deriveEvents, List.mem_append] at he
  rcases he with he | he
  · cases hs : doc.schedules with
    | none => rw [hs] at he; cases he
    | some buckets =>
      rw [hs] at he
      dsimp only at he
      rcases List.mem_flatMap.mp he with ⟨b, _, he2⟩
      cases hd : daysMap b.1 with
      | none => rw [hd] at he2; cases he2
      | some dn =>
        rw [hd] at he2
        dsimp only at he2
        by_cases hb : b.2 = []
        · rw [if_pos hb] at he2; cases he2
        · rw [if_neg hb] at he2
          rcases List.mem_filterMap.mp he2 with ⟨l, _, hev⟩
          exact lessonEvent?_fields hev
  · rcases List.mem_filterMap.mp he with ⟨x, _, hev⟩
    exact examEvent?_fields hev

/- ---------------------------------------------------------------- -/
/- Claim C3.                                                        -/
/- ---------------------------------------------------------------- -/

/-- C3: after `_process_schedule_json` runs for an entity pair (on the
normal path, i.e. group viewpoint or a truthy employee id), the event
rows stored for that pair are exactly the events derived from the new
document (even when that set is empty), and the rows of every other pair
are untouched. -/
theorem processScheduleJson_replaces (table : List EventRow)
    (ename etype : String) (employeeId : Option Nat) (doc : ScheduleDoc)
    (h : etype = "group" ∨ (employeeId ≠ none ∧ employeeId ≠ some 0)) :
    (processScheduleJson table ename etype employeeId doc).filter
        (pairP ename etype) = deriveEvents ename etype doc ∧
    (processScheduleJson table ename etype employeeId doc).filter
        (fun e => !(pairP ename etype e)) =
      table.filter (fun e => !(pairP ename etype e)) := by
  have hguard : ¬(etype ≠ "group" ∧ (employeeId = none ∨ employeeId = some 0)) := by
    rcases h with h | ⟨h1, h2⟩
    · intro hc
      exact hc.1 h
    · intro hc
      rcases hc.2 with ho | ho
      · exact h1 ho
      · exact h2 ho
  unfold processScheduleJson
  rw [if_neg hguard]
  constructor
  · rw [List.filter_append, List.filter_filter]
    have h1 : table.filter (fun a => pairP ename etype a && !(pairP ename etype a)) = [] := by
      apply List.filter_eq_nil_iff.mpr
      intro a _
      cases pairP ename etype a <;> simp
    have h2 : (deriveEvents ename etype doc).filter (pairP ename etype) =
        deriveEvents ename etype doc := by
      apply List.filter_eq_self.mpr
      intro a ha
      rcases deriveEvents_pair ename etype doc a ha with ⟨ha1, ha2⟩
      simp [pairP, ha1, ha2]
    rw [h1, h2, List.nil_append]
  · rw [List.filter_append, List.filter_filter]
    have h1 : table.filter (fun a => !(pairP ename etype a) && !(pairP ename etype a)) =
        table.filter (fun e => !(pairP ename etype e)) := by
      congr 1
      funext a
      cases pairP ename etype a <;> simp
    have h2 : (deriveEvents ename etype doc).filter (fun e => !(pairP ename etype e)) = [] := by
      apply List.filter_eq_nil_iff.mpr
      intro a ha
      rcases deriveEvents_pair ename etype doc a ha with ⟨ha1, ha2⟩
      simp [pairP, ha1, ha2]
    rw [h1, h2, List.append_nil]

/-- A stale event row for the pair ("G1", group). -/
def evStale : EventRow :=
  { entity_name := "G1", entity_type := "group", subject := "s",
    subject_full := "s", auditories := [], day_of_week := some 1,
    start_time := (8, 0), end_time := (9, 20), week_numbers := [1, 2, 3, 4],
    exact_date := none, related_groups := [], related_employees := [],
    subgroup := 0 }

/-- An event row of a different entity. -/
def evOther : EventRow :=
  { evStale with entity_name := "G2" }

/-- C3 witness: replacing the pair ("G1", group) with an empty document
deletes the stale row and leaves the other entity's row alone. -/
theorem processScheduleJson_replaces_witness :
    (processScheduleJson [evStale, evOther] "G1" "group" none ⟨none, []⟩).filter
        (pairP "G1" "group") = deriveEvents "G1" "group" ⟨none, []⟩ ∧
    (processScheduleJson [evStale, evOther] "G1" "group" none ⟨none, []⟩).filter
        (fun e => !(pairP "G1" "group" e)) =
      [evStale, evOther].filter (fun e => !(pairP "G1" "group" e)) :=
  processScheduleJson_replaces [evStale, evOther] "G1" "group" none ⟨none, []⟩
    (Or.inl rfl)

/- ---------------------------------------------------------------- -/
/- Claim C5.                                                        -/
/- ---------------------------------------------------------------- -/

/-- C5: an exam whose date parses but whose start or end time fails to
parse produces exactly one event carrying that exact date with a
midnight-midnight time, while a lesson whose start or end time fails to
parse produces zero events. -/
theorem exam_time_fallback_lesson_drop (ename etype : String) (e : Exam)
    (l : Lesson) (dn : Nat) (d : PDate)
    (hd : parseDateOpt e.dateLesson = some d)
    (hte : e.startLessonTime.bind parseTimeHM = none ∨
           e.endLessonTime.bind parseTimeHM = none)
    (htl : l.startLessonTime.bind parseTimeHM = none ∨
           l.endLessonTime.bind parseTimeHM = none) :
    examEvent? ename etype e = some (mkExamEvent ename etype e d (0, 0) (0, 0)) ∧
    (mkExamEvent ename etype e d (0, 0) (0, 0)).exact_date = some d ∧
    (mkExamEvent ename etype e d (0, 0) (0, 0)).start_time = (0, 0) ∧
    (mkExamEvent ename etype e d (0, 0) (0, 0)).end_time = (0, 0) ∧
    lessonEvent? ename etype dn l = none := by
  refine ⟨?_, rfl, rfl, rfl, ?_⟩
  · unfold examEvent?
    rw [hd]
    rcases hte with h | h
    · rw [h]
    · cases hx : e.startLessonTime.bind parseTimeHM
      · rfl
      · rw [h]
  · unfold lessonEvent?
    rcases htl with h | h
    · rw [h]
    · cases hx : l.startLessonTime.bind parseTimeHM
      · rfl
      · rw [h]

/-- An exam with a valid date and an unparseable end time. -/
def examBadTime : Exam :=
  { dateLesson := some "15.01.2025", startLessonTime := some "9:00",
    endLessonTime := some "9:61", auditories := [], subject := some "Физика",
    subjectFullName := none, employees := [], studentGroups := [],
    numSubgroup := none }

/-- A lesson with an unparseable start time. -/
def lessonBadTime : Lesson :=
  { startLessonTime := some "ab:00", endLessonTime := some "10:00",
    auditories := [], weekNumber := [], subject := none,
    subjectFullName := none, employees := [], studentGroups := [],
    numSubgroup := none }

/-- C5 witness: the theorem applied at concrete inputs. -/
theorem exam_time_fallback_lesson_drop_witness :
    examEvent? "G" "group" examBadTime =
      some (mkExamEvent "G" "group" examBadTime ⟨2025, 1, 15⟩ (0, 0) (0, 0)) ∧
    (mkExamEvent "G" "group" examBadTime ⟨2025, 1, 15⟩ (0, 0) (0, 0)).exact_date =
      some ⟨2025, 1, 15⟩ ∧
    (mkExamEvent "G" "group" examBadTime ⟨2025, 1, 15⟩ (0, 0) (0, 0)).start_time =
      (0, 0) ∧
    (mkExamEvent "G" "group" examBadTime ⟨2025, 1, 15⟩ (0, 0) (0, 0)).end_time =
      (0, 0) ∧
    lessonEvent? "G" "group" 1 lessonBadTime = none :=
  exam_time_fallback_lesson_drop "G" "group" examBadTime lessonBadTime 1
    ⟨2025, 1, 15⟩ (by decide) (Or.inr (by decide)) (Or.inl (by decide))

/- ---------------------------------------------------------------- -/
/- Claim C9.                                                        -/
/- ---------------------------------------------------------------- -/

/-- C9: an exam whose `dateLesson` is missing or fails to parse as
DD.MM.YYYY yields zero event rows — it is dropped regardless of its
times. -/
theorem exam_bad_date_dropped (ename etype : String) (e : Exam)
    (h : e.dateLesson = none ∨
         ∃ s, e.dateLesson = some s ∧ parseDateStr s = none) :
    examEvent? ename etype e = none := by
  have hp : parseDateOpt e.dateLesson = none := by
    rcases h with h | ⟨s, hs, hps⟩
    · rw [h]; rfl
    · rw [hs]
      simpa [parseDateOpt] using hps
  unfold examEvent?
  rw [hp]

/-- An exam with parseable times but an impossible calendar date. -/
def examBadDate : Exam :=
  { dateLesson := some "31.02.2024", startLessonTime := some "9:00",
    endLessonTime := some "10:00", auditories := [], subject := some "X",
    subjectFullName := none, employees := [], studentGroups := [],
    numSubgroup := none }

/-- C9 witness: February the 31st does not exist, so the exam is dropped
even though its times parse. -/
theorem exam_bad_date_dropped_witness :
    examEvent? "G" "group" examBadDate = none :=
  exam_bad_date_dropped "G" "group" examBadDate
    (Or.inr ⟨"31.02.2024", rfl, by decide⟩)

/- ---------------------------------------------------------------- -/
/- Occupancy Index Builder: `rebuild_occupancy_index`               -/
/- (logic.py lines 447-476).                                        -/
/- ---------------------------------------------------------------- -/

/-- The GROUP BY key of the rebuild query: `(se.day_of_week,
unnested week, se.start_time, se.end_time, a.id)`. -/
structure OccKey where
  dow : Nat
  week : Int
  startT : Nat × Nat
  endT : Nat × Nat
  aud : Nat
deriving DecidableEq, Repr

/-- The `CASE se.day_of_week WHEN 1 THEN 'Понедельник' ...` expression
(no ELSE branch: anything outside 1-7 yields NULL). -/
def dayName (n : Nat) : Option String :=
  if n = 1 then some "Понедельник"
  else if n = 2 then some "Вторник"
  else if n = 3 then some "Среда"
  else if n = 4 then some "Четверг"
  else if n = 5 then some "Пятница"
  else if n = 6 then some "Суббота"
  else if n = 7 then some "Воскресенье"
  else none

/-- One `occupancy_index` row. -/
structure OccRow where
  day_of_week : Option String
  week_number : Int
  start_time : Nat × Nat
  end_time : Nat × Nat
  auditory_id : Nat
  groups : List String
deriving DecidableEq, Repr

/-- The FROM / CROSS JOIN LATERAL unnest / JOIN / WHERE part of the
rebuild query (logic.py lines 463-467): every group-viewpoint event with
a non-null weekday contributes one `(key, entity_name)` pair for each
element of the cross product of its week-number list, its auditory-name
list, and the auditory rows whose name matches. -/
def occContribs (events : List EventRow) (auds : List AudRow) :
    List (OccKey × String) :=
  events.flatMap (fun e =>
    match e.day_of_week with
    | none => []
    | some dw =>
      if e.entity_type = "group" then
        e.week_numbers.flatMap (fun w =>
          e.auditories.flatMap (fun an =>
            (auds.filter (fun a => a.name == an)).map (fun a =>
              (⟨dw, w, e.start_time, e.end_time, a.id⟩, e.entity_name))))
      else [])

/-- The distinct GROUP BY keys. -/
def occKeys (events : List EventRow) (auds : List AudRow) : List OccKey :=
  ((occContribs events auds).map Prod.fst).dedup

/-- `array_agg(DISTINCT se.entity_name)` for one key. -/
def occGroups (events : List EventRow) (auds : List AudRow) (k : OccKey) :
    List String :=
  (((occContribs events auds).filter (fun c => c.1 == k)).map Prod.snd).dedup

def mkOccRow (k : OccKey) (gs : List String) : OccRow :=
  ⟨dayName k.dow, k.week, k.startT, k.endT, k.aud, gs⟩

/-- The SELECT ... GROUP BY result: one row per distinct key. -/
def buildOccupancy (events : List EventRow) (auds : List AudRow) : List OccRow :=
  (occKeys events auds).map (fun k => mkOccRow k (occGroups events auds k))

/-- `rebuild_occupancy_index` (logic.py lines 447-472): TRUNCATE then
INSERT ... SELECT, so the old table content is discarded entirely. -/
def rebuild_occupancy_index (old : List OccRow) (events : List EventRow)
    (auds : List AudRow) : List OccRow :=
  buildOccupancy events auds

/-- Spec-side description (for the refinement statement of C6): group `g`
occupies tuple `k` when some group-viewpoint event with weekday `k.dow`
carries week `k.week`, the times of `k`, and an auditory name resolving
to auditory row `k.aud`. -/
def specOccupies (events : List EventRow) (auds : List AudRow) (k : OccKey)
    (g : String) : Prop :=
  ∃ e ∈ events, e.entity_name = g ∧ e.entity_type = "group" ∧
    e.day_of_week = some k.dow ∧ k.week ∈ e.week_numbers ∧
    e.start_time = k.startT ∧ e.end_time = k.endT ∧
    ∃ a ∈ auds, a.name ∈ e.auditories ∧ a.id = k.aud

/-- Spec-side description: tuple `k` arises from the cross product of
some group-viewpoint event's week list and auditory list. -/
def specTupleArises (events : List EventRow) (auds : List AudRow)
    (k : OccKey) : Prop :=
  ∃ e ∈ events, e.entity_type = "group" ∧
    e.day_of_week = some k.dow ∧ k.week ∈ e.week_numbers ∧
    e.start_time = k.startT ∧ e.end_time = k.endT ∧
    ∃ a ∈ auds, a.name ∈ e.auditories ∧ a.id = k.aud

theorem mem_occContribs {events : List EventRow} {auds : List AudRow}
    {k : OccKey} {g : String} :
    (k, g) ∈ occContribs events auds ↔ specOccupies events auds k g := by
  constructor
  · intro h
    rcases List.mem_flatMap.mp h with ⟨e, he, h2⟩
    cases hdw : e.day_of_week with
    | none => rw [hdw] at h2; cases h2
    | some dw =>
      rw [hdw] at h2
      dsimp only at h2
      by_cases hg : e.entity_type = "group"
      · rw [if_pos hg] at h2
        rcases List.mem_flatMap.mp h2 with ⟨w, hw, h3⟩
        rcases List.mem_flatMap.mp h3 with ⟨an, han, h4⟩
        rcases List.mem_map.mp h4 with ⟨a, ha, heq⟩
        rcases List.mem_filter.mp ha with ⟨haa, hnameb⟩
        have hname : a.name = an := by simpa using hnameb
        injection heq with hk hgname
        subst hk
        exact ⟨e, he, hgname, hg, hdw, hw, rfl, rfl, a, haa,
          hname ▸ han, rfl⟩
      · rw [if_neg hg] at h2
        cases h2
  · rintro ⟨e, he, hgname, hg, hdw, hw, hst, het, a, ha, hname, hid⟩
    apply List.mem_flatMap.mpr
    refine ⟨e, he, ?_⟩
    rw [hdw]
    dsimp only
    rw [if_pos hg]
    apply List.mem_flatMap.mpr
    refine ⟨k.week, hw, ?_⟩
    apply List.mem_flatMap.mpr
    refine ⟨a.name, hname, ?_⟩
    apply List.mem_map.mpr
    refine ⟨a, List.mem_filter.mpr ⟨ha, by simp⟩, ?_⟩
    rw [hst, het, hid, hgname]

/- ---------------------------------------------------------------- -/
/- Claim C6.                                                        -/
/- ---------------------------------------------------------------- -/

/-- C6: `rebuild_occupancy_index` discards the old occupancy table
entirely and repopulates it with exactly one row per distinct
`(weekday, week, start, end, auditory)` key; a key is present exactly
when it arises from the cross product of the week-number list and the
auditory-name list of some group-viewpoint event with a weekday whose
auditory name resolves against the auditory table, and each row
aggregates exactly the distinct group names occupying that key.
Instructor-viewpoint events, events without a weekday (exams), and
unresolved auditory names contribute nothing (they satisfy no
`specOccupies`/`specTupleArises` instance). -/
theorem rebuild_occupancy_spec (old : List OccRow) (events : List EventRow)
    (auds : List AudRow) (k : OccKey) (g : String) :
    rebuild_occupancy_index old events auds = buildOccupancy events auds ∧
    buildOccupancy events auds =
      (occKeys events auds).map
        (fun k2 => mkOccRow k2 (occGroups events auds k2)) ∧
    (occKeys events auds).Nodup ∧
    (k ∈ occKeys events auds ↔ specTupleArises events auds k) ∧
    (g ∈ occGroups events auds k ↔ specOccupies events auds k g) := by
  refine ⟨rfl, rfl, List.nodup_dedup _, ?_, ?_⟩
  · rw [occKeys, List.mem_dedup, List.mem_map]
    constructor
    · rintro ⟨⟨k', g'⟩, hc, hck⟩
      cases hck
      rcases mem_occContribs.mp hc with
        ⟨e, he, _, hg, hdw, hw, hst, het, a, ha, hname, hid⟩
      exact ⟨e, he, hg, hdw, hw, hst, het, a, ha, hname, hid⟩
    · rintro ⟨e, he, hg, hdw, hw, hst, het, a, ha, hname, hid⟩
      refine ⟨(k, e.entity_name), ?_, rfl⟩
      exact mem_occContribs.mpr
        ⟨e, he, rfl, hg, hdw, hw, hst, het, a, ha, hname, hid⟩
  · rw [occGroups, List.mem_dedup, List.mem_map]
    constructor
    · rintro ⟨⟨k', g'⟩, hc, hcg⟩
      cases hcg
      rcases List.mem_filter.mp hc with ⟨hmem, hbeq⟩
      have hk : k' = k := by simpa using hbeq
      subst hk
      exact mem_occContribs.mp hmem
    · intro hs
      refine ⟨(k, g), List.mem_filter.mpr ⟨mem_occContribs.mpr hs, by simp⟩, rfl⟩

/- ---------------------------------------------------------------- -/
/- HTTP client retry policy: `BsuirApiClient._get`                  -/
/- (client.py lines 25-36).                                         -/
/- ---------------------------------------------------------------- -/

/-- The exception classes a fetch can raise: httpx transport errors,
timeouts, HTTP status errors (raised by `raise_for_status()` for EVERY
4xx/5xx response, the status code attached), and anything else, e.g. a
response-body decode error from `response.json()`. -/
inductive ApiError where
  | requestError
  | timeout
  | statusError (code : Nat)
  | decodeError
deriving DecidableEq, Repr

/-- `retry_if_exception_type((httpx.RequestError, httpx.TimeoutException,
httpx.HTTPStatusError))` (client.py line 28): every HTTPStatusError is in
the retry set, with no inspection of the status code. -/
def isRetryable : ApiError → Bool
  | .requestError => true
  | .timeout => true
  | .statusError _ => true
  | .decodeError => false

/-- `wait_exponential(multiplier=1, min=2, max=20)`: the delay slept
before the retry that follows failed attempt `n`. -/
def backoffDelay (n : Nat) : Nat :=
  max 2 (min 20 (2 ^ n))

/-- The outcome of a decorated call: a value, an exception re-raised
immediately (outside the retry set), or tenacity's final RetryError after
the attempt budget is exhausted. -/
inductive CallResult (α : Type) where
  | ok (a : α)
  | raised (e : ApiError)
  | retryError (e : ApiError)
deriving DecidableEq, Repr

/-- The tenacity driver: `f n` is the outcome of the n-th call (attempts
numbered from 1), `remaining` how many further attempts
`stop_after_attempt` still allows.  Returns the final outcome together
with the list of backoff delays slept. -/
def tenacityLoop {α : Type} (f : Nat → Except ApiError α) :
    Nat → Nat → CallResult α × List Nat
  | 0, attempt =>
    (match f attempt with
     | .ok a => (.ok a, [])
     | .error e =>
       if isRetryable e then (.retryError e, []) else (.raised e, []))
  | r + 1, attempt =>
    (match f attempt with
     | .ok a => (.ok a, [])
     | .error e =>
       if isRetryable e then
         let p := tenacityLoop f r (attempt + 1)
         (p.1, backoffDelay attempt :: p.2)
       else (.raised e, []))

/-- `_get` under `@retry(stop=stop_after_attempt(5), ...)`: at most five
calls in total. -/
def clientGet {α : Type} (f : Nat → Except ApiError α) :
    CallResult α × List Nat :=
  tenacityLoop f 4 1

/- ---------------------------------------------------------------- -/
/- Claim C7.                                                        -/
/- ---------------------------------------------------------------- -/

/-- A fetch behavior whose first call fails with HTTP 404 and whose
second call succeeds. -/
def notFoundThenOk : Nat → Except ApiError Nat := fun n =>
  if n = 1 then .error (.statusError 404) else .ok 42

/-- C7 counterexample: a not-found status does NOT propagate immediately.
The retry predicate covers every HTTPStatusError, so the 404 of the
first call is retried (after a 2s backoff) and the call returns the
second attempt's value instead of raising. -/
theorem client_retries_notfound_cex :
    isRetryable (ApiError.statusError 404) = true ∧
    clientGet notFoundThenOk = (CallResult.ok 42, [2]) ∧
    clientGet notFoundThenOk ≠ (CallResult.raised (ApiError.statusError 404), []) := by
  refine ⟨rfl, by decide, by decide⟩

/-- C7 (amended): transport errors, timeouts and ALL HTTP status errors
(client errors such as not-found included) are retried with exponential
backoff (2s, 4s, 8s, 16s) for at most five attempts in total, after which
tenacity raises its final retry error; only exceptions outside those
classes (e.g. a response decode error) propagate immediately without any
retry. -/
theorem client_retry_classification {α : Type}
    (f : Nat → Except ApiError α) (e e1 e2 e3 e4 e5 : ApiError) (a : α) :
    (f 1 = Except.error e → isRetryable e = false →
       clientGet f = (CallResult.raised e, [])) ∧
    (f 1 = Except.error e → isRetryable e = true → f 2 = Except.ok a →
       clientGet f = (CallResult.ok a, [2])) ∧
    (f 1 = Except.error e1 → f 2 = Except.error e2 → f 3 = Except.error e3 →
     f 4 = Except.error e4 → f 5 = Except.error e5 →
     isRetryable e1 = true → isRetryable e2 = true → isRetryable e3 = true →
     isRetryable e4 = true → isRetryable e5 = true →
       clientGet f = (CallResult.retryError e5, [2, 4, 8, 16])) := by
  refine ⟨?_, ?_, ?_⟩
  · intro h1 hr
    simp [clientGet, tenacityLoop, h1, hr]
  · intro h1 hr h2
    simp [clientGet, tenacityLoop, h1, hr, h2, backoffDelay]
  · intro h1 h2 h3 h4 h5 r1 r2 r3 r4 r5
    simp [clientGet, tenacityLoop, h1, h2, h3, h4, h5, r1, r2, r3, r4, r5,
      backoffDelay]

/-- C7 witness: a decode error on the first call propagates immediately,
with no retries and no backoff sleeps. -/
theorem client_retry_classification_witness :
    clientGet (fun _ => (Except.error ApiError.decodeError : Except ApiError Nat)) =
      (CallResult.raised ApiError.decodeError, []) :=
  (client_retry_classification (fun _ => Except.error ApiError.decodeError)
    ApiError.decodeError ApiError.decodeError ApiError.decodeError
    ApiError.decodeError ApiError.decodeError ApiError.decodeError 0).1
    rfl rfl
